import Mathlib

/-!
# Verification of the appleseed stochastic path-tracing core

A shallow embedding of the path-tracing kernel of the appleseed renderer:

* `PathTracer::trace` from `renderer/kernel/lighting/pathtracer.h`
  (the iterative random walk, lines 124-314);
* the image-based-lighting estimator from
  `renderer/kernel/lighting/imagebasedlighting.cpp`;
* the light-tracing `PathVisitor` from
  `renderer/kernel/rendering/lighttracing/lighttracingsamplegenerator.cpp`.

External collaborators (intersector, BSDF/EDF sampling, camera projection,
square roots and vector normalization from `foundation/math`) are modelled
as oracles supplied in an environment record, so theorems quantify over
every possible behaviour of those collaborators.  Floating-point spectrum
arithmetic in the path tracer is modelled by an extended value type `EF`
(finite rationals plus infinities and a not-a-number element) so that
claims about NaN/Inf propagation are expressible; rounding is idealized to
exact rational arithmetic.
-/

/-! ## Extended floating-point values -/

/-- Model of an IEEE double/float value: a finite rational, one of the two
infinities, or NaN.  Rounding/overflow of finite arithmetic is idealized
(exact rationals), which is enough for the sign/finiteness claims below. -/
inductive EF where
  | nan : EF
  | inf : EF
  | ninf : EF
  | fin : ℚ → EF
deriving DecidableEq

namespace EF

/-- IEEE `<` on extended values: any comparison with NaN is false. -/
def lt : EF → EF → Bool
  | nan, _ => false
  | _, nan => false
  | inf, _ => false
  | ninf, ninf => false
  | ninf, _ => true
  | fin _, inf => true
  | fin _, ninf => false
  | fin a, fin b => decide (a < b)

/-- IEEE multiplication on extended values (NaN-propagating,
`inf * 0 = NaN`). -/
def mul : EF → EF → EF
  | nan, _ => nan
  | _, nan => nan
  | inf, inf => inf
  | inf, ninf => ninf
  | ninf, inf => ninf
  | ninf, ninf => inf
  | inf, fin b => if 0 < b then inf else if b < 0 then ninf else nan
  | fin a, inf => if 0 < a then inf else if a < 0 then ninf else nan
  | ninf, fin b => if 0 < b then ninf else if b < 0 then inf else nan
  | fin a, ninf => if 0 < a then ninf else if a < 0 then inf else nan
  | fin a, fin b => fin (a * b)

/-- IEEE division on extended values (`inf/inf = NaN`, `x/0 = ±inf` for
`x ≠ 0`, `0/0 = NaN`; signed zero is not modelled). -/
def div : EF → EF → EF
  | nan, _ => nan
  | _, nan => nan
  | inf, inf => nan
  | inf, ninf => nan
  | ninf, inf => nan
  | ninf, ninf => nan
  | inf, fin b => if b < 0 then ninf else inf
  | ninf, fin b => if b < 0 then inf else ninf
  | fin _, inf => fin 0
  | fin _, ninf => fin 0
  | fin a, fin b =>
      if b = 0 then (if a = 0 then nan else if 0 < a then inf else ninf)
      else fin (a / b)

/-- Model of `std::min(a, b)`: returns `b` when `b < a`, else `a`
(hence `min(NaN, x) = NaN`). -/
def min (a b : EF) : EF := if lt b a then b else a

/-- Model of `std::max(a, b)`: returns `b` when `a < b`, else `a`. -/
def max (a b : EF) : EF := if lt a b then b else a

/-- The value is a finite non-negative number (not NaN, not infinite,
not negative). -/
def finNonneg : EF → Bool
  | fin q => decide (0 ≤ q)
  | _ => false

end EF

/-! ## Vectors, spectra, scattering modes -/

/-- A world-space vector/point with rational coordinates. -/
structure V3 where
  x : ℚ
  y : ℚ
  z : ℚ
deriving DecidableEq

/-- Componentwise negation, `-v`. -/
def negV3 (v : V3) : V3 := ⟨-v.x, -v.y, -v.z⟩

/-- Componentwise difference, `a - b`. -/
def subV3 (a b : V3) : V3 := ⟨a.x - b.x, a.y - b.y, a.z - b.z⟩

/-- Scalar multiple, `c • v`. -/
def smulV3 (c : ℚ) (v : V3) : V3 := ⟨c * v.x, c * v.y, c * v.z⟩

/-- Dot product of two vectors. -/
def dotV3 (a b : V3) : ℚ := a.x * b.x + a.y * b.y + a.z * b.z

/-- A spectrum with extended-float components (the path tracer's
`Spectrum` type). -/
abbrev SpecEF := List EF

/-- Componentwise spectrum product, `a *= b`. -/
def mulSpec (a b : SpecEF) : SpecEF := List.zipWith EF.mul a b

/-- Componentwise division of a spectrum by a scalar, `a /= p`. -/
def divSpecScalar (a : SpecEF) (p : EF) : SpecEF := a.map (fun e => EF.div e p)

/-- Modelled from the spec: `foundation::max_value` (not under `src/`) —
the largest component of a spectrum, computed with `std::max` semantics. -/
def maxValue : SpecEF → EF
  | [] => EF.fin 0
  | e :: es => es.foldl EF.max e

/-- The `BSDF::Mode` scattering-mode enumeration. -/
inductive ScatteringMode where
  | modeNone : ScatteringMode
  | diffuse : ScatteringMode
  | glossy : ScatteringMode
  | specular : ScatteringMode
deriving DecidableEq

/-- A sampled BSDF probability: either the Dirac-delta sentinel
(`BSDF::DiracDelta`, flagging a perfectly specular sample) or an ordinary
extended-float value. -/
inductive ProbM where
  | dirac : ProbM
  | val : EF → ProbM
deriving DecidableEq

/-! ## Path tracer data model (`pathtracer.h`) -/

/-- A `ShadingRay`: origin, direction and time (the ray flags, always
`~0` for rays built by the tracer, are not read by the embedded code and
are omitted). -/
structure RayM where
  origin : V3
  dir : V3
  time : ℚ
deriving DecidableEq

/-- A surface shader, reduced to the alpha mask value its
`evaluate_alpha_mask` produces at the current shading point
(`alpha_mask[0]`). -/
structure SurfaceShaderM where
  alphaMask : ℚ
deriving DecidableEq

/-- A material: an optional surface shader and whether a BSDF is bound
(`get_bsdf() != 0`); the BSDF's behaviour itself lives in the environment
oracles. -/
structure MaterialM where
  surfaceShader : Option SurfaceShaderM
  hasBsdf : Bool
deriving DecidableEq

/-- A `ShadingPoint`: the ray that produced it, the hit flag, the hit
position and the material bound there. -/
structure ShadingPointM where
  ray : RayM
  hit : Bool
  point : V3
  material : Option MaterialM
deriving DecidableEq

/-- The result of one `bsdf->sample` call: incoming direction, value,
probability and scattering mode. -/
structure BsdfSampleM where
  incoming : V3
  value : SpecEF
  prob : ProbM
  mode : ScatteringMode

/-- The environment of one `PathTracer::trace` call: the oracle behaviour
of every external collaborator, plus the tracer's construction
parameters.  Streams are indexed by call counts so any (stateful)
collaborator behaviour is representable. -/
structure PathEnv where
  /-- the n-th uniform sample drawn by `sampling_context.next_double2()` -/
  rand : Nat → ℚ
  /-- the n-th `bsdf->sample` result -/
  bsdfSample : Nat → BsdfSampleM
  /-- the n-th `intersector.trace` result for a given ray -/
  isect : RayM → Nat → ShadingPointM
  /-- the n-th `visit_vertex` return value (false = stop the path) -/
  visit : Nat → Bool
  /-- `foundation::normalize` (external math oracle) -/
  normalize : V3 → V3
  /-- the `ScatteringModesMask` template argument, as a mode predicate -/
  modeMask : ScatteringMode → Bool
  /-- `m_rr_min_path_length` -/
  rrMinPathLength : Nat
  /-- `m_max_path_length` -/
  maxPathLength : Nat
  /-- number of components of `Spectrum` -/
  specSize : Nat

/-- The mutable state of the `while (true)` loop in
`PathTracer::trace`. -/
structure PathState where
  sp : ShadingPointM
  throughput : SpecEF
  pathLength : Nat
  bsdfMode : ScatteringMode
  bsdfProb : ProbM
  randIdx : Nat
  bsdfIdx : Nat
  isectIdx : Nat
  visitIdx : Nat

/-- Observable events of one loop iteration: visitor callbacks, the two
intersector call sites (the transparency retry at line 193 and the bounce
at line 303), and every write to `throughput`. -/
inductive PathEvent where
  | visitEnv (outgoing : V3) (mode : ScatteringMode) (throughput : SpecEF)
  | visitVertex (point : V3) (outgoing : V3) (mode : ScatteringMode)
      (prob : ProbM) (throughput : SpecEF)
  | retryTrace (ray : RayM)
  | bounceTrace (ray : RayM)
  | tpUpdate (throughput : SpecEF)
deriving DecidableEq

/-- Lines 253-254: divide the sampled BSDF value by its probability
unless the probability is the Dirac-delta sentinel. -/
def divideByProb (value : SpecEF) (prob : ProbM) : SpecEF :=
  match prob with
  | ProbM.dirac => value
  | ProbM.val p => value.map (fun e => EF.div e p)

/-- Modelled from the spec: `foundation::pass_rr` from
`foundation/math/rr.h` (not under `src/`) — continue the walk iff the
uniform sample falls below the scattering probability. -/
def pass_rr (prob : EF) (s : ℚ) : Bool := EF.lt (EF.fin s) prob

/-- Lines 259-276: the Russian-roulette section.  Given the index of the
next uniform sample, the current path length, the just-sampled (and
divided) BSDF value and the updated throughput, return `none` when the
path is killed, otherwise the surviving throughput and the next sample
index. -/
def rrApply (env : PathEnv) (randIdx pathLength : Nat)
    (value tp : SpecEF) : Option (SpecEF × Nat) :=
  if 0 < env.rrMinPathLength ∧ env.rrMinPathLength ≤ pathLength then
    let s := env.rand randIdx
    let scatteringProb := EF.min (maxValue value) (EF.fin 1)
    if pass_rr scatteringProb s then
      some (divSpecScalar tp scatteringProb, randIdx + 1)
    else none
  else some (tp, randIdx)

/-- The hard path-length ceiling of line 283. -/
def HardPathLengthLimit : Nat := 10000

/-- Result of one loop iteration: the loop breaks returning the current
path length, or continues in a new state. -/
inductive StepRes where
  | done (pathLength : Nat) : StepRes
  | next (st : PathState) : StepRes

/-- Lines 206-311 of `PathTracer::trace`: the part of the loop body after
alpha masking — BSDF retrieval, the per-vertex visitor, BSDF sampling,
the throughput update, Russian roulette, the bounce limits and the
scattered-ray construction.  `randIdx` is the index of the next unused
uniform sample (one may have been consumed by the alpha test). -/
def traceStepBsdf (env : PathEnv) (st : PathState) (material : MaterialM)
    (randIdx : Nat) : StepRes × List PathEvent :=
  if material.hasBsdf = false then (StepRes.done st.pathLength, [])
  else
    let outgoing := env.normalize (negV3 st.sp.ray.dir)
    let visitEv := PathEvent.visitVertex st.sp.point outgoing st.bsdfMode
      st.bsdfProb st.throughput
    if env.visit st.visitIdx = false then (StepRes.done st.pathLength, [visitEv])
    else
      let bs := env.bsdfSample st.bsdfIdx
      if env.modeMask bs.mode = false then (StepRes.done st.pathLength, [visitEv])
      else
        let value := divideByProb bs.value bs.prob
        let tp1 := mulSpec st.throughput value
        match rrApply env randIdx st.pathLength value tp1 with
        | none => (StepRes.done st.pathLength, [visitEv, PathEvent.tpUpdate tp1])
        | some (tp2, randIdx2) =>
          if 0 < env.maxPathLength ∧ env.maxPathLength ≤ st.pathLength then
            (StepRes.done st.pathLength,
             [visitEv, PathEvent.tpUpdate tp1, PathEvent.tpUpdate tp2])
          else if HardPathLengthLimit ≤ st.pathLength then
            (StepRes.done st.pathLength,
             [visitEv, PathEvent.tpUpdate tp1, PathEvent.tpUpdate tp2])
          else
            let scatteredRay : RayM := ⟨st.sp.point, bs.incoming, st.sp.ray.time⟩
            (StepRes.next
              { sp := env.isect scatteredRay st.isectIdx
                throughput := tp2
                pathLength := st.pathLength + 1
                bsdfMode := bs.mode
                bsdfProb := bs.prob
                randIdx := randIdx2
                bsdfIdx := st.bsdfIdx + 1
                isectIdx := st.isectIdx + 1
                visitIdx := st.visitIdx + 1 },
             [visitEv, PathEvent.tpUpdate tp1, PathEvent.tpUpdate tp2,
              PathEvent.bounceTrace scatteredRay])

/-- One iteration of the `while (true)` loop of `PathTracer::trace`
(lines 140-311): environment escape, missing material / surface shader,
alpha masking with the transparency retry, then `traceStepBsdf`. -/
def traceStep (env : PathEnv) (st : PathState) : StepRes × List PathEvent :=
  if st.sp.hit = false then
    (StepRes.done st.pathLength,
     [PathEvent.visitEnv (env.normalize (negV3 st.sp.ray.dir)) st.bsdfMode
        st.throughput])
  else
    match st.sp.material with
    | none => (StepRes.done st.pathLength, [])
    | some material =>
      match material.surfaceShader with
      | none => (StepRes.done st.pathLength, [])
      | some ss =>
        if ss.alphaMask < 1 then
          let s := env.rand st.randIdx
          if ss.alphaMask ≤ s then
            let cutoffRay : RayM := ⟨st.sp.point, st.sp.ray.dir, st.sp.ray.time⟩
            (StepRes.next
              { st with
                sp := env.isect cutoffRay st.isectIdx
                randIdx := st.randIdx + 1
                isectIdx := st.isectIdx + 1 },
             [PathEvent.retryTrace cutoffRay])
          else traceStepBsdf env st material (st.randIdx + 1)
        else traceStepBsdf env st material st.randIdx

/-- Iterate the loop with explicit fuel.  Returns the path length
(`none` when the fuel runs out before the loop breaks — the C++ loop has
no fuel, so fuel exhaustion models a still-running walk) together with
the events of the executed iterations. -/
def traceLoop (env : PathEnv) : PathState → Nat → Option Nat × List PathEvent
  | _, 0 => (none, [])
  | st, fuel + 1 =>
    match traceStep env st with
    | (StepRes.done n, ev) => (some n, ev)
    | (StepRes.next st2, ev) =>
      let rest := traceLoop env st2 fuel
      (rest.1, ev ++ rest.2)

/-- The loop state at entry of `PathTracer::trace` (lines 136-139):
unit throughput, path length 1, previous mode `Specular` with the
Dirac-delta probability. -/
def initState (env : PathEnv) (sp : ShadingPointM) : PathState :=
  { sp := sp
    throughput := List.replicate env.specSize (EF.fin 1)
    pathLength := 1
    bsdfMode := ScatteringMode.specular
    bsdfProb := ProbM.dirac
    randIdx := 0
    bsdfIdx := 0
    isectIdx := 0
    visitIdx := 0 }

/-- `PathTracer::trace` from a shading point, run with the given fuel. -/
def pathTrace (env : PathEnv) (sp : ShadingPointM) (fuel : Nat) :
    Option Nat × List PathEvent :=
  traceLoop env (initState env sp) fuel

/-- The walk never breaks out of the loop, whatever fuel it is given:
the C++ `while (true)` loop runs forever. -/
def loopsForever (env : PathEnv) (sp : ShadingPointM) : Prop :=
  ∀ fuel, (pathTrace env sp fuel).1 = none

/-! ## Light-tracing path visitor (`lighttracingsamplegenerator.cpp`) -/

/-- Modelled from the spec: `foundation::square` — `x * x`. -/
def square (x : ℚ) : ℚ := x * x

/-- The camera data cached by the light-tracing `PathVisitor` constructor:
aperture position and gaze direction in world space, the reciprocal film
area and the focal length. -/
structure LTCam where
  cameraPos : V3
  cameraDir : V3
  rcpFilmArea : ℚ
  focal : ℚ

/-- Oracles for the visitor's external collaborators. -/
structure LTOracles where
  /-- camera-space transform composed with `Camera::project`, mapping a
  world-space vertex to NDC coordinates -/
  project : V3 → ℚ × ℚ
  /-- `compute_transmission_between(camera_position, vertex)` -/
  transmission : V3 → ℚ
  /-- external square root used by `vertex_to_camera /= sqrt(...)` -/
  sqrt : ℚ → ℚ
  /-- `bsdf->evaluate` with the (possibly flipped) geometric normal, the
  outgoing direction and the vertex-to-camera direction -/
  bsdfEval : V3 → V3 → V3 → List ℚ

/-- An emitted image sample: NDC position plus the radiance fed to the
(external) spectrum-to-RGB conversion. -/
structure SampleM where
  position : ℚ × ℚ
  radiance : List ℚ
deriving DecidableEq

/-- The visitor's mutable state: the particle weight `m_alpha`, the
output sample vector and `m_sample_count`. -/
structure LTState where
  alpha : List ℚ
  samples : List SampleM
  sampleCount : Nat
deriving DecidableEq

/-- The flux-to-radiance factor of lines 202-207 (and 292-297):
`dist_pixel_to_camera = focal_length / cos_theta`, then
`square(dist_pixel_to_camera / cos_theta) * rcp_film_area`. -/
def fluxToRadiance (focal cosTheta rcpFilmArea : ℚ) : ℚ :=
  square ((focal / cosTheta) / cosTheta) * rcpFilmArea

/-- The camera-measure factor as the spec sentence words it
(`dist_pixel_to_camera² × rcp_film_area`), stated for comparison with
`fluxToRadiance`. -/
def fluxToRadianceSpec (focal cosTheta rcpFilmArea : ℚ) : ℚ :=
  square (focal / cosTheta) * rcpFilmArea

/-- `PathVisitor::visit_light_vertex` (lines 168-228): project the light
vertex, reject if off the image plane or occluded, otherwise emit one
sample weighted by `m_alpha × transmission × g × flux_to_radiance`. -/
def visitLightVertexM (C : LTCam) (O : LTOracles) (st : LTState)
    (vertexPos : V3) : LTState :=
  let ndc := O.project vertexPos
  if ndc.1 < 0 ∨ 1 ≤ ndc.1 ∨ ndc.2 < 0 ∨ 1 ≤ ndc.2 then st
  else
    let transmission := O.transmission vertexPos
    if transmission = 0 then st
    else
      let vtc0 := subV3 C.cameraPos vertexPos
      let squareDistance := dotV3 vtc0 vtc0
      let vertexToCamera := smulV3 (1 / O.sqrt squareDistance) vtc0
      let cosTheta := |dotV3 (negV3 vertexToCamera) C.cameraDir|
      let g := cosTheta / squareDistance
      let radiance := st.alpha.map
        (fun c => c * (transmission * g * fluxToRadiance C.focal cosTheta C.rcpFilmArea))
      { st with
        samples := st.samples ++ [⟨ndc, radiance⟩]
        sampleCount := st.sampleCount + 1 }

/-- The per-vertex arguments of `PathVisitor::visit_vertex` (the
`bsdf_mode`/`bsdf_prob` parameters are received but unused by the body
and are omitted). -/
structure LTVisitArgs where
  point : V3
  outgoing : V3
  shadingNormal : V3
  geometricNormal : V3
  throughput : List ℚ

/-- `PathVisitor::visit_vertex` (lines 230-322): project the vertex,
reject if off the image plane or occluded; otherwise flip the geometric
normal into the shading hemisphere, evaluate the BSDF toward the camera,
update the particle weight `m_alpha *= throughput`, and emit one sample
weighted by `m_alpha × bsdf × transmission × g × flux_to_radiance`. -/
def visitVertexM (C : LTCam) (O : LTOracles) (st : LTState)
    (a : LTVisitArgs) : LTState :=
  let ndc := O.project a.point
  if ndc.1 < 0 ∨ 1 ≤ ndc.1 ∨ ndc.2 < 0 ∨ 1 ≤ ndc.2 then st
  else
    let transmission := O.transmission a.point
    if transmission = 0 then st
    else
      let vtc0 := subV3 C.cameraPos a.point
      let squareDistance := dotV3 vtc0 vtc0
      let vertexToCamera := smulV3 (1 / O.sqrt squareDistance) vtc0
      let geomN :=
        if dotV3 a.shadingNormal a.geometricNormal < 0 then negV3 a.geometricNormal
        else a.geometricNormal
      let bsdfValue := O.bsdfEval geomN a.outgoing vertexToCamera
      let cosTheta := |dotV3 (negV3 vertexToCamera) C.cameraDir|
      let g := cosTheta / squareDistance
      let alpha2 := List.zipWith (fun x y => x * y) st.alpha a.throughput
      let radiance := (List.zipWith (fun x y => x * y) alpha2 bsdfValue).map
        (fun c => c * (transmission * g * fluxToRadiance C.focal cosTheta C.rcpFilmArea))
      { alpha := alpha2
        samples := st.samples ++ [⟨ndc, radiance⟩]
        sampleCount := st.sampleCount + 1 }

/-- The rejection condition of both visitors: the projected NDC position
lies outside `[0,1)²`. -/
def ndcOutside (p : ℚ × ℚ) : Prop :=
  p.1 < 0 ∨ 1 ≤ p.1 ∨ p.2 < 0 ∨ 1 ≤ p.2

instance (p : ℚ × ℚ) : Decidable (ndcOutside p) := by
  unfold ndcOutside; infer_instance

/-! ## Image-based-lighting estimator (`imagebasedlighting.cpp`) -/

/-- A BSDF probability in the IBL estimator, over plain rationals: the
Dirac sentinel or a value. -/
inductive ProbQ where
  | dirac : ProbQ
  | val : ℚ → ProbQ
deriving DecidableEq

/-- Modelled from the spec: the numeric double behind the Dirac-delta
sentinel `BSDF::DiracDelta` (its definition is not under `src/`).  The
diffuse branch asserts `bsdf_prob > 0.0`, so the sentinel is some
non-positive distinguished value; `-1` is used here.  No claim below
depends on this number. -/
def ProbQ.toVal : ProbQ → ℚ
  | dirac => -1
  | val q => q

/-- Modelled from the spec: `foundation::mis_power2` from
`foundation/math/mis.h` (not under `src/`) — the power-heuristic MIS
weight with exponent 2, `q1² / (q1² + q2²)`. -/
def misPower2 (q1 q2 : ℚ) : ℚ := square q1 / (square q1 + square q2)

/-- The MIS weight of the BSDF-sampling technique (lines 128-134): `1`
for a Dirac-delta probability, otherwise
`mis_power2(bsdf_sample_count·bsdf_prob, env_sample_count·env_prob)`. -/
def iblMisWeightBsdf (bsdfProb : ProbQ) (bsdfSampleCount envSampleCount : Nat)
    (envProb : ℚ) : ℚ :=
  match bsdfProb with
  | ProbQ.dirac => 1
  | ProbQ.val p => misPower2 (bsdfSampleCount * p) (envSampleCount * envProb)

/-- The MIS weight of the environment-sampling technique (lines 228-232):
`mis_power2(env_sample_count·env_prob, bsdf_sample_count·bsdf_prob)`. -/
def iblMisWeightEnv (envSampleCount : Nat) (envProb : ℚ)
    (bsdfSampleCount : Nat) (bsdfProb : ℚ) : ℚ :=
  misPower2 (envSampleCount * envProb) (bsdfSampleCount * bsdfProb)

/-- One `bsdf.sample` result inside `compute_ibl_bsdf_sampling`. -/
structure IblBsdfSampleM where
  incoming : V3
  value : List ℚ
  prob : ProbQ
  mode : ScatteringMode

/-- Environment of `compute_ibl_bsdf_sampling`: per-iteration oracles for
the BSDF sampler and the occlusion tracer, the environment EDF, and the
two sample counts. -/
structure IblEnv where
  bsdfSample : Nat → IblBsdfSampleM
  /-- whether the occlusion ray of iteration `i` hits (sample discarded) -/
  occluded : Nat → Bool
  /-- the transmission factor of iteration `i` -/
  transmission : Nat → ℚ
  /-- `environment_edf.evaluate`: radiance and probability for a direction -/
  envEval : V3 → List ℚ × ℚ
  bsdfSampleCount : Nat
  envSampleCount : Nat

/-- Observable side effects of one IBL BSDF-sampling iteration: the
occlusion-ray trace and the environment-EDF evaluation. -/
inductive IblEvent where
  | occlusionTrace (incoming : V3)
  | envEvaluate (incoming : V3)
deriving DecidableEq

/-- One iteration of the loop of `compute_ibl_bsdf_sampling`
(lines 72-140): sample the BSDF, skip non-diffuse modes, trace the
occlusion ray, skip occluded samples, evaluate the environment, apply
the MIS weight and accumulate. -/
def iblBsdfSampleStep (env : IblEnv) (i : Nat) (radiance : List ℚ) :
    List ℚ × List IblEvent :=
  let bs := env.bsdfSample i
  if bs.mode ≠ ScatteringMode.diffuse then (radiance, [])
  else
    if env.occluded i then (radiance, [IblEvent.occlusionTrace bs.incoming])
    else
      let ev := env.envEval bs.incoming
      let w := iblMisWeightBsdf bs.prob env.bsdfSampleCount env.envSampleCount ev.2
      let contrib := List.zipWith (fun x y => x * y)
        (ev.1.map (fun c => c * (env.transmission i * w / bs.prob.toVal))) bs.value
      (List.zipWith (fun x y => x + y) radiance contrib,
       [IblEvent.occlusionTrace bs.incoming, IblEvent.envEvaluate bs.incoming])

/-- `compute_ibl_bsdf_sampling` (lines 54-144): zero the radiance, run
`bsdf_sample_count` iterations, then average when the count exceeds 1. -/
def computeIblBsdfSampling (env : IblEnv) (specSize : Nat) :
    List ℚ × List IblEvent :=
  let res := (List.range env.bsdfSampleCount).foldl
    (fun acc i =>
      let r := iblBsdfSampleStep env i acc.1
      (r.1, acc.2 ++ r.2))
    (List.replicate specSize (0 : ℚ), [])
  if 1 < env.bsdfSampleCount then
    (res.1.map (fun c => c / (env.bsdfSampleCount : ℚ)), res.2)
  else res

/-! ## Observation helpers and well-behavedness predicates -/

/-- Whether an event is a `visit_vertex` callback. -/
def isVisitVertexEv : PathEvent → Bool
  | PathEvent.visitVertex _ _ _ _ _ => true
  | _ => false

/-- Whether an event is a transparency-retry intersector call. -/
def isRetryEv : PathEvent → Bool
  | PathEvent.retryTrace _ => true
  | _ => false

/-- Number of `visit_vertex` callbacks in an event log. -/
def countVisits (l : List PathEvent) : Nat := l.countP isVisitVertexEv

/-- Number of transparency-retry intersector calls in an event log. -/
def countRetries (l : List PathEvent) : Nat := l.countP isRetryEv

/-- Whether an event is a scattered-ray (bounce) intersector call. -/
def isBounceEv : PathEvent → Bool
  | PathEvent.bounceTrace _ => true
  | _ => false

/-- Number of scattered-ray (bounce) intersector calls in an event log. -/
def countBounces (l : List PathEvent) : Nat := l.countP isBounceEv

/-- The shading point can never take the transparency-retry branch: it
has no material, no surface shader, or an alpha mask of at least 1. -/
def alphaOpaque (sp : ShadingPointM) : Bool :=
  match sp.material with
  | none => true
  | some m =>
    match m.surfaceShader with
    | none => true
    | some ss => decide (1 ≤ ss.alphaMask)

/-- A sampled BSDF probability is well-behaved: the Dirac sentinel or a
finite positive value. -/
def probWellBehaved : ProbM → Bool
  | ProbM.dirac => true
  | ProbM.val (EF.fin q) => decide (0 < q)
  | ProbM.val _ => false

/-- The external collaborators behave as the spec's interface contracts
require: every sampled BSDF value is finite and non-negative
componentwise, every non-Dirac sampled probability is finite and
positive, and every uniform sample is non-negative. -/
def envWellBehaved (env : PathEnv) : Prop :=
  ∀ n, (∀ e ∈ (env.bsdfSample n).value, e.finNonneg = true)
    ∧ probWellBehaved (env.bsdfSample n).prob = true
    ∧ 0 ≤ env.rand n

/-! ## Concrete inputs for counterexamples and witnesses -/

/-- A unit ray along `z`. -/
def ray0 : RayM := ⟨⟨0, 0, 0⟩, ⟨0, 0, 1⟩, 0⟩

/-- A shading point that missed the scene. -/
def spMiss : ShadingPointM := ⟨ray0, false, ⟨0, 0, 0⟩, none⟩

/-- A material with a surface shader evaluating to the given alpha mask
and a bound BSDF. -/
def matFull (alpha : ℚ) : MaterialM := ⟨some ⟨alpha⟩, true⟩

/-- A hit shading point whose surface shader evaluates to the given
alpha mask. -/
def spHit (alpha : ℚ) : ShadingPointM := ⟨ray0, true, ⟨0, 0, 0⟩, some (matFull alpha)⟩

/-- A benign environment: misses on retrace, unit diffuse BSDF samples,
no Russian roulette, unbounded path length, one spectrum component. -/
def baseEnv : PathEnv :=
  { rand := fun _ => 0
    bsdfSample := fun _ => ⟨⟨0, 0, 1⟩, [EF.fin 1], ProbM.val (EF.fin 1), ScatteringMode.diffuse⟩
    isect := fun _ _ => spMiss
    visit := fun _ => true
    normalize := fun v => v
    modeMask := fun _ => true
    rrMinPathLength := 0
    maxPathLength := 0
    specSize := 1 }

/-- An adversarial BSDF stub: an infinite sampled value with a near-zero
probability (the regression input named by the spec). -/
def envInf : PathEnv :=
  { baseEnv with
    bsdfSample := fun _ =>
      ⟨⟨0, 0, 1⟩, [EF.inf], ProbM.val (EF.fin (1 / 1000000000)), ScatteringMode.diffuse⟩
    maxPathLength := 1 }

/-- A fully transparent hit point. -/
def spT : ShadingPointM := spHit 0

/-- An adversarial intersector: every ray hits a fully transparent
surface, so the walk takes the transparency-retry branch forever. -/
def envT : PathEnv := { baseEnv with isect := fun _ _ => spT }

/-- Witness environment for the hard-limit theorem (immediate miss). -/
def envW : PathEnv := baseEnv

/-- Witness environment for the single-bounce theorem:
`max_path_length = 1`, Russian roulette disabled. -/
def env9 : PathEnv := { baseEnv with maxPathLength := 1 }

/-- Witness environment for the Russian-roulette theorem:
`rr_min_path_length = 1`, a BSDF value of 1/2 and a uniform sample of
3/4, so the roulette kills the path. -/
def env3 : PathEnv :=
  { baseEnv with
    rrMinPathLength := 1
    rand := fun _ => 3 / 4
    bsdfSample := fun _ => ⟨⟨0, 0, 1⟩, [EF.fin (1 / 2)], ProbM.val (EF.fin 1), ScatteringMode.diffuse⟩ }

/-- Concrete camera for the light-tracing theorems: aperture at
`(0,0,2)`, unit gaze `(3/5, 0, -4/5)`, unit focal length and film area. -/
def ltCamC : LTCam := ⟨⟨0, 0, 2⟩, ⟨3 / 5, 0, -4 / 5⟩, 1, 1⟩

/-- Concrete oracles projecting every vertex to the image-plane center,
with full transmission and a unit Lambertian-like BSDF value. -/
def ltOrC : LTOracles :=
  { project := fun _ => (1 / 2, 1 / 2)
    transmission := fun _ => 1
    sqrt := fun _ => 2
    bsdfEval := fun _ _ _ => [1] }

/-- Oracles whose projection falls outside the image plane. -/
def ltOrOut : LTOracles :=
  { project := fun _ => (2, 0)
    transmission := fun _ => 1
    sqrt := fun _ => 2
    bsdfEval := fun _ _ _ => [1] }

/-- Concrete visitor arguments at the world origin. -/
def ltArgsC : LTVisitArgs :=
  { point := ⟨0, 0, 0⟩
    outgoing := ⟨0, 0, 1⟩
    shadingNormal := ⟨0, 0, 1⟩
    geometricNormal := ⟨0, 0, 1⟩
    throughput := [1] }

/-- Witness IBL environment: every BSDF sample is glossy. -/
def iblEnvGlossy : IblEnv :=
  { bsdfSample := fun _ => ⟨⟨0, 0, 1⟩, [1], ProbQ.val 1, ScatteringMode.glossy⟩
    occluded := fun _ => false
    transmission := fun _ => 1
    envEval := fun _ => ([1], 1)
    bsdfSampleCount := 2
    envSampleCount := 1 }

/-! ## Theorems: light-tracing visitor (claims about
`lighttracingsamplegenerator.cpp`) -/

/-- C10: when a non-light path vertex is rejected — its projection falls
outside `[0,1)²` or its transmission toward the camera is zero —
`visit_vertex` leaves all visitor state unchanged: no sample is appended,
the sample count is not incremented, and the particle weight `m_alpha` is
not multiplied by the path throughput. -/
theorem lt_visit_vertex_rejection_pure (C : LTCam) (O : LTOracles)
    (st : LTState) (a : LTVisitArgs)
    (h : ndcOutside (O.project a.point) ∨ O.transmission a.point = 0) :
    visitVertexM C O st a = st := by
  unfold ndcOutside at h
  simp only [visitVertexM]
  split_ifs with h1 h2 <;> first | rfl | tauto

/-- Witness for `lt_visit_vertex_rejection_pure`: a vertex projecting to
NDC `(2, 0)` is rejected and the visitor state is returned unchanged. -/
theorem lt_visit_vertex_rejection_pure_witness :
    visitVertexM ltCamC ltOrOut ⟨[1], [], 0⟩ ltArgsC = ⟨[1], [], 0⟩ :=
  lt_visit_vertex_rejection_pure ltCamC ltOrOut ⟨[1], [], 0⟩ ltArgsC
    (Or.inl (by decide))

/-- C5 (amended): for every vertex visible to the camera — the light
vertex and every subsequent path vertex — the camera-measure conversion
factor weighting the emitted sample is
`square(dist_pixel_to_camera / cos θ) × rcp_film_area` (an extra `1/cos²θ`
relative to the claimed `dist_pixel_to_camera² × rcp_film_area`), with
`dist_pixel_to_camera = focal_length / cos θ` and `cos θ` the absolute
cosine between the vertex-to-camera direction and the camera gaze. -/
theorem flux_to_radiance_amended
    (C : LTCam) (O : LTOracles) (st : LTState) (a : LTVisitArgs) (lightPos : V3)
    (sqdL : ℚ) (v2cL : V3) (cosL : ℚ) (sqdV : ℚ) (v2cV : V3) (geomN : V3) (cosV : ℚ)
    (hinL : ¬ ndcOutside (O.project lightPos))
    (htrL : O.transmission lightPos ≠ 0)
    (hinV : ¬ ndcOutside (O.project a.point))
    (htrV : O.transmission a.point ≠ 0)
    (hsqdL : sqdL = dotV3 (subV3 C.cameraPos lightPos) (subV3 C.cameraPos lightPos))
    (hv2cL : v2cL = smulV3 (1 / O.sqrt sqdL) (subV3 C.cameraPos lightPos))
    (hcosL : cosL = |dotV3 (negV3 v2cL) C.cameraDir|)
    (hsqdV : sqdV = dotV3 (subV3 C.cameraPos a.point) (subV3 C.cameraPos a.point))
    (hv2cV : v2cV = smulV3 (1 / O.sqrt sqdV) (subV3 C.cameraPos a.point))
    (hgeo : geomN = (if dotV3 a.shadingNormal a.geometricNormal < 0 then
        negV3 a.geometricNormal else a.geometricNormal))
    (hcosV : cosV = |dotV3 (negV3 v2cV) C.cameraDir|) :
    visitLightVertexM C O st lightPos =
      { st with
        samples := st.samples ++ [⟨O.project lightPos,
          st.alpha.map (fun c => c * (O.transmission lightPos * (cosL / sqdL) *
            fluxToRadiance C.focal cosL C.rcpFilmArea))⟩]
        sampleCount := st.sampleCount + 1 }
    ∧ visitVertexM C O st a =
      { alpha := List.zipWith (fun x y => x * y) st.alpha a.throughput
        samples := st.samples ++ [⟨O.project a.point,
          ((List.zipWith (fun x y => x * y)
              (List.zipWith (fun x y => x * y) st.alpha a.throughput)
              (O.bsdfEval geomN a.outgoing v2cV)).map
            (fun c => c * (O.transmission a.point * (cosV / sqdV) *
              fluxToRadiance C.focal cosV C.rcpFilmArea)))⟩]
        sampleCount := st.sampleCount + 1 }
    ∧ fluxToRadiance C.focal cosL C.rcpFilmArea =
        square (C.focal / cosL / cosL) * C.rcpFilmArea
    ∧ fluxToRadianceSpec C.focal cosL C.rcpFilmArea =
        square (C.focal / cosL) * C.rcpFilmArea := by
  unfold ndcOutside at hinL hinV
  subst hsqdL hv2cL hcosL hsqdV hv2cV hgeo hcosV
  refine ⟨?_, ?_, rfl, rfl⟩
  · simp only [visitLightVertexM]
    rw [if_neg hinL, if_neg htrL]
  · simp only [visitVertexM]
    rw [if_neg hinV, if_neg htrV]

/-- Counterexample for C5: at a vertex with `cos θ = 4/5`, focal length 1
and unit film area, the emitted sample is weighted by the factor
`square(dist/cos θ) = 625/256`, while the claimed factor
`dist² × rcp_film_area` is `25/16`; the two disagree. -/
theorem flux_to_radiance_cex :
    visitLightVertexM ltCamC ltOrC ⟨[1], [], 0⟩ ⟨0, 0, 0⟩ =
      ⟨[1], [⟨(1/2, 1/2), [(125 : ℚ)/256]⟩], 1⟩
    ∧ fluxToRadiance 1 (4/5) 1 = 625/256
    ∧ fluxToRadianceSpec 1 (4/5) 1 = 25/16
    ∧ fluxToRadiance 1 (4/5) 1 ≠ fluxToRadianceSpec 1 (4/5) 1 := by
  refine ⟨?_, ?_, ?_, ?_⟩
  · norm_num [visitLightVertexM, ltCamC, ltOrC, ndcOutside, dotV3, subV3,
      smulV3, negV3, fluxToRadiance, square, abs_of_nonneg]
  · norm_num [fluxToRadiance, square]
  · norm_num [fluxToRadianceSpec, square]
  · norm_num [fluxToRadiance, fluxToRadianceSpec, square]

/-- Witness for `flux_to_radiance_amended` at a concrete camera and
vertex with `cos θ = 4/5`. -/
theorem flux_to_radiance_witness :
    fluxToRadiance ltCamC.focal (4/5) ltCamC.rcpFilmArea =
      square (ltCamC.focal / (4/5) / (4/5)) * ltCamC.rcpFilmArea :=
  (flux_to_radiance_amended ltCamC ltOrC ⟨[1], [], 0⟩ ltArgsC ⟨0, 0, 0⟩
    4 ⟨0, 0, 1⟩ (4/5) 4 ⟨0, 0, 1⟩ ⟨0, 0, 1⟩ (4/5)
    (by norm_num [ltOrC, ndcOutside]) (by norm_num [ltOrC])
    (by norm_num [ltOrC, ltArgsC, ndcOutside]) (by norm_num [ltOrC, ltArgsC])
    (by norm_num [ltCamC, dotV3, subV3])
    (by norm_num [ltOrC, ltCamC, smulV3, subV3])
    (by norm_num [ltCamC, dotV3, negV3, abs_of_nonneg])
    (by norm_num [ltCamC, ltArgsC, dotV3, subV3])
    (by norm_num [ltOrC, ltCamC, ltArgsC, smulV3, subV3])
    (by norm_num [ltArgsC, dotV3])
    (by norm_num [ltCamC, dotV3, negV3, abs_of_nonneg])).2.2.1

/-! ## Theorems: image-based-lighting estimator -/

/-- C6: for a fixed direction with finite positive probabilities, the two
power-heuristic MIS weights computed by the IBL estimator — the
BSDF-sampling technique's `mis_power2(nb·pb, ne·pe)` and the
environment-sampling technique's `mis_power2(ne·pe, nb·pb)` — sum to
exactly 1 (hence at most 1), and swapping which technique is primary
yields the same pair of weights. -/
theorem mis_weights_sum_le_one (nb ne : Nat) (pb pe : ℚ)
    (hpb : 0 < pb) (hpe : 0 < pe) (hn : 0 < nb ∨ 0 < ne) :
    iblMisWeightBsdf (ProbQ.val pb) nb ne pe + iblMisWeightEnv ne pe nb pb = 1
    ∧ iblMisWeightBsdf (ProbQ.val pb) nb ne pe + iblMisWeightEnv ne pe nb pb ≤ 1
    ∧ iblMisWeightEnv nb pb ne pe = iblMisWeightBsdf (ProbQ.val pb) nb ne pe
    ∧ iblMisWeightBsdf (ProbQ.val pe) ne nb pb = iblMisWeightEnv ne pe nb pb := by
  have ha : (0 : ℚ) ≤ (nb : ℚ) * pb :=
    mul_nonneg (Nat.cast_nonneg nb) (le_of_lt hpb)
  have hb : (0 : ℚ) ≤ (ne : ℚ) * pe :=
    mul_nonneg (Nat.cast_nonneg ne) (le_of_lt hpe)
  have hpos : 0 < square ((nb : ℚ) * pb) + square ((ne : ℚ) * pe) := by
    rcases hn with hn | hn
    · have : (0 : ℚ) < (nb : ℚ) * pb := by
        exact mul_pos (by exact_mod_cast hn) hpb
      unfold square
      nlinarith [mul_self_nonneg ((ne : ℚ) * pe)]
    · have : (0 : ℚ) < (ne : ℚ) * pe := by
        exact mul_pos (by exact_mod_cast hn) hpe
      unfold square
      nlinarith [mul_self_nonneg ((nb : ℚ) * pb)]
  have key : iblMisWeightBsdf (ProbQ.val pb) nb ne pe
      + iblMisWeightEnv ne pe nb pb = 1 := by
    unfold iblMisWeightBsdf iblMisWeightEnv misPower2
    rw [add_comm (square ((ne : ℚ) * pe)) (square ((nb : ℚ) * pb)),
      div_add_div_same, div_self (ne_of_gt hpos)]
  exact ⟨key, le_of_eq key, rfl, rfl⟩

/-- Witness for `mis_weights_sum_le_one` at one BSDF sample and one
environment sample with unit probabilities (each weight 1/2). -/
theorem mis_weights_sum_le_one_witness :
    iblMisWeightBsdf (ProbQ.val 1) 1 1 1 + iblMisWeightEnv 1 1 1 1 = 1 :=
  (mis_weights_sum_le_one 1 1 1 1 (by norm_num) (by norm_num)
    (Or.inl (by norm_num))).1

/-- C8: in the IBL BSDF-sampling technique only diffuse-mode samples
contribute: an iteration whose sampled mode is glossy or specular (or
absorbed) leaves the accumulated radiance unchanged, traces no occlusion
ray and evaluates no environment radiance; if every sample is
non-diffuse, the whole estimator returns zero radiance and performs no
traces or evaluations. -/
theorem ibl_bsdf_diffuse_only :
    (∀ (env : IblEnv) (i : Nat) (radiance : List ℚ),
      (env.bsdfSample i).mode ≠ ScatteringMode.diffuse →
      iblBsdfSampleStep env i radiance = (radiance, []))
    ∧ (∀ (env : IblEnv) (specSize : Nat),
      (∀ i, (env.bsdfSample i).mode ≠ ScatteringMode.diffuse) →
      computeIblBsdfSampling env specSize = (List.replicate specSize 0, [])) := by
  have step : ∀ (env : IblEnv) (i : Nat) (radiance : List ℚ),
      (env.bsdfSample i).mode ≠ ScatteringMode.diffuse →
      iblBsdfSampleStep env i radiance = (radiance, []) := by
    intro env i radiance h
    simp only [iblBsdfSampleStep]
    rw [if_pos h]
  refine ⟨step, ?_⟩
  intro env specSize h
  have fold : ∀ (l : List Nat) (acc : List ℚ × List IblEvent),
      List.foldl
        (fun acc i =>
          ((iblBsdfSampleStep env i acc.1).1, acc.2 ++ (iblBsdfSampleStep env i acc.1).2))
        acc l = acc := by
    intro l
    induction l with
    | nil => intro acc; rfl
    | cons x xs ih =>
      intro acc
      rw [List.foldl_cons, step env x acc.1 (h x)]
      simpa using ih acc
  simp only [computeIblBsdfSampling]
  rw [fold (List.range env.bsdfSampleCount) (List.replicate specSize 0, [])]
  split_ifs with hc
  · simp
  · rfl

/-- Witness for `ibl_bsdf_diffuse_only`: an environment whose BSDF always
samples a glossy lobe yields zero radiance and no side effects. -/
theorem ibl_bsdf_diffuse_only_witness :
    computeIblBsdfSampling iblEnvGlossy 3 = (List.replicate 3 0, []) :=
  ibl_bsdf_diffuse_only.2 iblEnvGlossy 3 (fun i => by simp [iblEnvGlossy])

/-- C7: the Dirac-delta probability sentinel disables the division by the
sampled probability — `PathTracer::trace` multiplies the throughput by the
raw sampled value — and disables the power-heuristic MIS weight (weight 1)
in the IBL BSDF-sampling technique; for any non-sentinel probability the
division and the `mis_power2` weight are applied.  The final conjunct ties
the division into the walk: whenever the loop body reaches the throughput
update, the throughput written is the previous throughput times
`divideByProb value prob`. -/
theorem dirac_delta_disables_division_and_mis :
    (∀ v : SpecEF, divideByProb v ProbM.dirac = v)
    ∧ (∀ (v : SpecEF) (p : EF),
        divideByProb v (ProbM.val p) = v.map (fun e => EF.div e p))
    ∧ (∀ (nb ne : Nat) (ep : ℚ), iblMisWeightBsdf ProbQ.dirac nb ne ep = 1)
    ∧ (∀ (p : ℚ) (nb ne : Nat) (ep : ℚ),
        iblMisWeightBsdf (ProbQ.val p) nb ne ep =
          misPower2 ((nb : ℚ) * p) ((ne : ℚ) * ep))
    ∧ (∀ (env : PathEnv) (st : PathState) (material : MaterialM) (r : Nat),
        material.hasBsdf = true → env.visit st.visitIdx = true →
        env.modeMask (env.bsdfSample st.bsdfIdx).mode = true →
        PathEvent.tpUpdate (mulSpec st.throughput
            (divideByProb (env.bsdfSample st.bsdfIdx).value
              (env.bsdfSample st.bsdfIdx).prob))
          ∈ (traceStepBsdf env st material r).2) := by
  refine ⟨fun v => rfl, fun v p => rfl, fun nb ne ep => rfl,
    fun p nb ne ep => rfl, ?_⟩
  intro env st material r hb hv hm
  cases h : rrApply env r st.pathLength
      (divideByProb (env.bsdfSample st.bsdfIdx).value (env.bsdfSample st.bsdfIdx).prob)
      (mulSpec st.throughput
        (divideByProb (env.bsdfSample st.bsdfIdx).value (env.bsdfSample st.bsdfIdx).prob)) with
  | none => simp [traceStepBsdf, hb, hv, hm, h]
  | some pr =>
    cases pr with
    | mk tp2 r2 =>
      simp only [traceStepBsdf, hb, hv, hm, h]
      split_ifs <;> simp_all

/-- Witness for `dirac_delta_disables_division_and_mis`: a concrete
hit-point step whose throughput update is the product with the divided
BSDF value. -/
theorem dirac_delta_disables_division_and_mis_witness :
    PathEvent.tpUpdate (mulSpec (initState baseEnv (spHit 1)).throughput
        (divideByProb (baseEnv.bsdfSample (initState baseEnv (spHit 1)).bsdfIdx).value
          (baseEnv.bsdfSample (initState baseEnv (spHit 1)).bsdfIdx).prob))
      ∈ (traceStepBsdf baseEnv (initState baseEnv (spHit 1)) (matFull 1) 0).2 :=
  dirac_delta_disables_division_and_mis.2.2.2.2 baseEnv
    (initState baseEnv (spHit 1)) (matFull 1) 0 rfl rfl rfl

/-! ## Theorems: path tracer -/

/-- C3: Russian roulette is applied exactly when `rr_min_path_length > 0`
and the current path length has reached it; it draws one uniform sample,
survives iff that sample passes against
`min(max-component(bsdf_value), 1)` — where `bsdf_value` is the
just-sampled bounce's value after division by its probability — divides
the throughput by that probability on survival, and terminates the walk
on failure; with `rr_min_path_length = 0` it is never applied. -/
theorem russian_roulette_exact (env : PathEnv) (st : PathState)
    (material : MaterialM) (r : Nat) (value tp1 : SpecEF) (p : EF)
    (hb : material.hasBsdf = true)
    (hv : env.visit st.visitIdx = true)
    (hm : env.modeMask (env.bsdfSample st.bsdfIdx).mode = true)
    (hval : value = divideByProb (env.bsdfSample st.bsdfIdx).value
      (env.bsdfSample st.bsdfIdx).prob)
    (htp : tp1 = mulSpec st.throughput value)
    (hp : p = EF.min (maxValue value) (EF.fin 1)) :
    (env.rrMinPathLength = 0 →
      rrApply env r st.pathLength value tp1 = some (tp1, r))
    ∧ (st.pathLength < env.rrMinPathLength →
      rrApply env r st.pathLength value tp1 = some (tp1, r))
    ∧ (0 < env.rrMinPathLength → env.rrMinPathLength ≤ st.pathLength →
      pass_rr p (env.rand r) = true →
      rrApply env r st.pathLength value tp1 =
        some (divSpecScalar tp1 p, r + 1))
    ∧ (0 < env.rrMinPathLength → env.rrMinPathLength ≤ st.pathLength →
      pass_rr p (env.rand r) = false →
      rrApply env r st.pathLength value tp1 = none
      ∧ (traceStepBsdf env st material r).1 = StepRes.done st.pathLength) := by
  refine ⟨?_, ?_, ?_, ?_⟩
  · intro h0
    simp only [rrApply]
    rw [if_neg (by omega)]
  · intro hlt
    simp only [rrApply]
    rw [if_neg (by omega)]
  · intro h1 h2 hpass
    simp only [rrApply]
    rw [if_pos ⟨h1, h2⟩, ← hp, if_pos hpass]
  · intro h1 h2 hfail
    have hnone : rrApply env r st.pathLength value tp1 = none := by
      simp only [rrApply]
      rw [if_pos ⟨h1, h2⟩, ← hp, if_neg]
      simp [hfail]
    refine ⟨hnone, ?_⟩
    subst hval htp
    simp [traceStepBsdf, hb, hv, hm, hnone]

/-- Witness for `russian_roulette_exact`: with `rr_min_path_length = 1`,
a BSDF value of 1/2 and a uniform sample of 3/4 the roulette fails and
the walk terminates at path length 1. -/
theorem russian_roulette_exact_witness :
    rrApply env3 0 (initState env3 (spHit 1)).pathLength
      [EF.fin (1/2)] [EF.fin (1/2)] = none
    ∧ (traceStepBsdf env3 (initState env3 (spHit 1)) (matFull 1) 0).1 =
      StepRes.done (initState env3 (spHit 1)).pathLength :=
  (russian_roulette_exact env3 (initState env3 (spHit 1)) (matFull 1) 0
    [EF.fin (1/2)] [EF.fin (1/2)] (EF.fin (1/2)) rfl rfl rfl
    (by norm_num [env3, baseEnv, initState, divideByProb, EF.div])
    (by norm_num [env3, baseEnv, initState, mulSpec, EF.mul, List.replicate])
    (by norm_num [maxValue, EF.min, EF.lt])).2.2.2
    (by norm_num [env3]) (by norm_num [env3, initState])
    (by norm_num [pass_rr, EF.lt, env3, baseEnv])

/-- The post-alpha part of the loop body never calls the transparency
retry: its event lists contain no retry trace. -/
theorem stepBsdf_no_retry (env : PathEnv) (st : PathState)
    (material : MaterialM) (r : Nat) :
    countRetries (traceStepBsdf env st material r).2 = 0 := by
  by_cases h1 : material.hasBsdf = false
  · simp [traceStepBsdf, h1, countRetries, isRetryEv]
  · by_cases h2 : env.visit st.visitIdx = false
    · simp [traceStepBsdf, h1, h2, countRetries, isRetryEv]
    · by_cases h3 : env.modeMask (env.bsdfSample st.bsdfIdx).mode = false
      · simp [traceStepBsdf, h1, h2, h3, countRetries, isRetryEv]
      · cases hrr : rrApply env r st.pathLength
            (divideByProb (env.bsdfSample st.bsdfIdx).value
              (env.bsdfSample st.bsdfIdx).prob)
            (mulSpec st.throughput
              (divideByProb (env.bsdfSample st.bsdfIdx).value
                (env.bsdfSample st.bsdfIdx).prob)) with
        | none =>
          simp [traceStepBsdf, h1, h2, h3, hrr, countRetries, isRetryEv]
        | some pr =>
          cases pr with
          | mk tp2 r2 =>
            simp only [traceStepBsdf, h1, h2, h3, hrr]
            split_ifs <;> simp [countRetries, isRetryEv]

/-- C4: for a hit point with a bound material and surface shader: alpha
mask 1 never takes the transparency-retry branch; alpha mask 0 always
re-traces a ray in the exact same direction from the same point without
invoking the visitor and without touching the path length or throughput;
for alpha strictly between 0 and 1 the retry is taken exactly when the
drawn uniform sample `s` satisfies `s ≥ alpha`. -/
theorem alpha_transparency_retry (env : PathEnv) (st : PathState)
    (material : MaterialM) (ss : SurfaceShaderM)
    (hhit : st.sp.hit = true)
    (hmat : st.sp.material = some material)
    (hss : material.surfaceShader = some ss) :
    (ss.alphaMask = 1 → countRetries (traceStep env st).2 = 0)
    ∧ (ss.alphaMask = 0 → 0 ≤ env.rand st.randIdx →
        traceStep env st =
          (StepRes.next { st with
              sp := env.isect ⟨st.sp.point, st.sp.ray.dir, st.sp.ray.time⟩ st.isectIdx
              randIdx := st.randIdx + 1
              isectIdx := st.isectIdx + 1 },
           [PathEvent.retryTrace ⟨st.sp.point, st.sp.ray.dir, st.sp.ray.time⟩]))
    ∧ (0 < ss.alphaMask → ss.alphaMask < 1 →
        ss.alphaMask ≤ env.rand st.randIdx →
        traceStep env st =
          (StepRes.next { st with
              sp := env.isect ⟨st.sp.point, st.sp.ray.dir, st.sp.ray.time⟩ st.isectIdx
              randIdx := st.randIdx + 1
              isectIdx := st.isectIdx + 1 },
           [PathEvent.retryTrace ⟨st.sp.point, st.sp.ray.dir, st.sp.ray.time⟩]))
    ∧ (ss.alphaMask < 1 → env.rand st.randIdx < ss.alphaMask →
        countRetries (traceStep env st).2 = 0) := by
  refine ⟨?_, ?_, ?_, ?_⟩
  · intro h1
    simp [traceStep, hhit, hmat, hss, h1, stepBsdf_no_retry]
  · intro h1 hs
    simp [traceStep, hhit, hmat, hss, h1, hs]
  · intro h0 h1 hs
    simp [traceStep, hhit, hmat, hss, h1, hs]
  · intro h1 hlt
    simp [traceStep, hhit, hmat, hss, h1, not_le.mpr hlt, stepBsdf_no_retry]

/-- Witness for `alpha_transparency_retry`: a fully transparent hit point
retries in the same direction without a visitor call. -/
theorem alpha_transparency_retry_witness :
    traceStep envT (initState envT spT) =
      (StepRes.next { initState envT spT with
          sp := envT.isect ⟨(initState envT spT).sp.point,
            (initState envT spT).sp.ray.dir,
            (initState envT spT).sp.ray.time⟩ (initState envT spT).isectIdx
          randIdx := (initState envT spT).randIdx + 1
          isectIdx := (initState envT spT).isectIdx + 1 },
       [PathEvent.retryTrace ⟨(initState envT spT).sp.point,
          (initState envT spT).sp.ray.dir,
          (initState envT spT).sp.ray.time⟩]) :=
  (alpha_transparency_retry envT (initState envT spT) (matFull 0) ⟨0⟩
    rfl rfl rfl).2.1 rfl le_rfl

/-- With `max_path_length = 1` and a current path length of 1, the
post-alpha part of the loop body always breaks at the user bounce limit:
it returns the current path length and performs at most one visitor
call. -/
theorem stepBsdf_maxlen_one (env : PathEnv) (st : PathState)
    (material : MaterialM) (r : Nat)
    (hmax : env.maxPathLength = 1) (hlen : st.pathLength = 1) :
    (traceStepBsdf env st material r).1 = StepRes.done st.pathLength
    ∧ countVisits (traceStepBsdf env st material r).2 ≤ 1
    ∧ countBounces (traceStepBsdf env st material r).2 = 0 := by
  by_cases h1 : material.hasBsdf = false
  · simp [traceStepBsdf, h1, countVisits, countBounces, isVisitVertexEv,
      isBounceEv]
  · by_cases h2 : env.visit st.visitIdx = false
    · simp [traceStepBsdf, h1, h2, countVisits, countBounces,
        isVisitVertexEv, isBounceEv]
    · by_cases h3 : env.modeMask (env.bsdfSample st.bsdfIdx).mode = false
      · simp [traceStepBsdf, h1, h2, h3, countVisits, countBounces,
          isVisitVertexEv, isBounceEv]
      · cases hrr : rrApply env r st.pathLength
            (divideByProb (env.bsdfSample st.bsdfIdx).value
              (env.bsdfSample st.bsdfIdx).prob)
            (mulSpec st.throughput
              (divideByProb (env.bsdfSample st.bsdfIdx).value
                (env.bsdfSample st.bsdfIdx).prob)) with
        | none =>
          simp [traceStepBsdf, h1, h2, h3, hrr, countVisits, countBounces,
            isVisitVertexEv, isBounceEv]
        | some pr =>
          cases pr with
          | mk tp2 r2 =>
            have hcond : 0 < env.maxPathLength
                ∧ env.maxPathLength ≤ st.pathLength := by omega
            simp [traceStepBsdf, h1, h2, h3, hrr, hcond, countVisits,
              countBounces, isVisitVertexEv, isBounceEv]

/-- With `max_path_length = 1` and a current path length of 1, one loop
iteration either breaks returning path length 1 with at most one visitor
call, or takes the transparency retry (no visitor call, path length still
1). -/
theorem step_maxlen_one (env : PathEnv) (st : PathState)
    (hmax : env.maxPathLength = 1) (hlen : st.pathLength = 1) :
    ((traceStep env st).1 = StepRes.done 1
      ∧ countVisits (traceStep env st).2 ≤ 1
      ∧ countBounces (traceStep env st).2 = 0)
    ∨ (∃ st2, (traceStep env st).1 = StepRes.next st2 ∧ st2.pathLength = 1
      ∧ countVisits (traceStep env st).2 = 0
      ∧ countBounces (traceStep env st).2 = 0) := by
  by_cases hh : st.sp.hit = false
  · left
    simp [traceStep, hh, countVisits, countBounces, isVisitVertexEv,
      isBounceEv, hlen]
  · cases hmat : st.sp.material with
    | none =>
      left
      simp [traceStep, hh, hmat, countVisits, countBounces, hlen]
    | some material =>
      cases hss : material.surfaceShader with
      | none =>
        left
        simp [traceStep, hh, hmat, hss, countVisits, countBounces, hlen]
      | some ss =>
        by_cases ha : ss.alphaMask < 1
        · by_cases hs : ss.alphaMask ≤ env.rand st.randIdx
          · right
            refine ⟨{ st with
                sp := env.isect ⟨st.sp.point, st.sp.ray.dir, st.sp.ray.time⟩
                  st.isectIdx
                randIdx := st.randIdx + 1
                isectIdx := st.isectIdx + 1 }, ?_, ?_, ?_, ?_⟩
            · simp [traceStep, hh, hmat, hss, ha, hs]
            · simp [hlen]
            · simp [traceStep, hh, hmat, hss, ha, hs, countVisits,
                isVisitVertexEv]
            · simp [traceStep, hh, hmat, hss, ha, hs, countBounces,
                isBounceEv]
          · left
            have hstep : traceStep env st =
                traceStepBsdf env st material (st.randIdx + 1) := by
              simp [traceStep, hh, hmat, hss, ha, hs]
            have h := stepBsdf_maxlen_one env st material (st.randIdx + 1)
              hmax hlen
            rw [hstep]
            exact ⟨hlen ▸ h.1, h.2.1, h.2.2⟩
        · left
          have hstep : traceStep env st =
              traceStepBsdf env st material st.randIdx := by
            simp [traceStep, hh, hmat, hss, ha]
          have h := stepBsdf_maxlen_one env st material st.randIdx hmax hlen
          rw [hstep]
          exact ⟨hlen ▸ h.1, h.2.1, h.2.2⟩

/-- With `max_path_length = 1`, any number of loop iterations from a
state at path length 1 performs at most one visitor call and can only
return path length 1. -/
theorem loop_maxlen_one (env : PathEnv) (hmax : env.maxPathLength = 1) :
    ∀ (fuel : Nat) (st : PathState), st.pathLength = 1 →
      countVisits (traceLoop env st fuel).2 ≤ 1
      ∧ countBounces (traceLoop env st fuel).2 = 0
      ∧ ∀ n, (traceLoop env st fuel).1 = some n → n = 1 := by
  intro fuel
  induction fuel with
  | zero => intro st _; simp [traceLoop, countVisits, countBounces]
  | succ f ih =>
    intro st hlen
    rcases step_maxlen_one env st hmax hlen with ⟨hd, hc, hb⟩
        | ⟨st2, hn, hl2, hc, hb⟩
    · cases hstep : traceStep env st with
      | mk res ev =>
        rw [hstep] at hd hc hb
        simp only at hd hc hb
        subst hd
        refine ⟨?_, ?_, ?_⟩
        · simpa [traceLoop, hstep, countVisits] using hc
        · simpa [traceLoop, hstep, countBounces] using hb
        · intro n h
          simp [traceLoop, hstep] at h
          omega
    · cases hstep : traceStep env st with
      | mk res ev =>
        rw [hstep] at hn hc hb
        simp only at hn hc hb
        subst hn
        have ihr := ih st2 hl2
        refine ⟨?_, ?_, ?_⟩
        · have h1 := ihr.1
          have h2 : countVisits ev = 0 := hc
          simp only [traceLoop, hstep, countVisits, List.countP_append] at *
          omega
        · have h1 := ihr.2.1
          have h2 : countBounces ev = 0 := hb
          simp only [traceLoop, hstep, countBounces, List.countP_append] at *
          omega
        · intro n h
          apply ihr.2.2
          simp only [traceLoop, hstep] at h
          exact h
/-- C9: with `max_path_length = 1` and Russian roulette disabled, the
walk invokes the per-vertex visitor at most once and never proceeds
beyond path length 1: it traces no scattered bounce ray at all, and any
returned path length equals 1. -/
theorem single_bounce_visits_once (env : PathEnv) (sp : ShadingPointM)
    (fuel : Nat) (hmax : env.maxPathLength = 1)
    (hrr : env.rrMinPathLength = 0) :
    countVisits (pathTrace env sp fuel).2 ≤ 1
    ∧ countBounces (pathTrace env sp fuel).2 = 0
    ∧ ∀ n, (pathTrace env sp fuel).1 = some n → n = 1 :=
  loop_maxlen_one env hmax fuel (initState env sp) rfl

/-- Witness for `single_bounce_visits_once`: a concrete one-bounce
configuration visits at most one vertex. -/
theorem single_bounce_visits_once_witness :
    countVisits (pathTrace env9 (spHit 1) 3).2 ≤ 1 :=
  (single_bounce_visits_once env9 (spHit 1) 3 rfl rfl).1

/-- Against the always-transparent intersector, every loop iteration
takes the transparency-retry branch and continues in a state whose
shading point is again the fully transparent hit. -/
theorem envT_step (st : PathState) (h : st.sp = spT) :
    traceStep envT st =
      (StepRes.next { st with
          sp := spT
          randIdx := st.randIdx + 1
          isectIdx := st.isectIdx + 1 },
       [PathEvent.retryTrace ⟨st.sp.point, st.sp.ray.dir, st.sp.ray.time⟩]) := by
  simp [traceStep, h, envT, baseEnv, spT, spHit, matFull]

/-- Against the always-transparent intersector, the loop never breaks,
whatever the fuel. -/
theorem envT_loop : ∀ (fuel : Nat) (st : PathState), st.sp = spT →
    (traceLoop envT st fuel).1 = none := by
  intro fuel
  induction fuel with
  | zero => intro st _; rfl
  | succ f ih =>
    intro st h
    have hstep := envT_step st h
    simp only [traceLoop, hstep]
    exact ih _ rfl

/-- Counterexample for C2: starting at a fully transparent hit point in a
scene whose intersector always returns another fully transparent hit,
`PathTracer::trace` loops forever — the transparency-retry branch never
increments the path length, so the 10,000-bounce hard ceiling never
fires and the walk does not terminate. -/
theorem hard_limit_nontermination_cex :
    (pathTrace envT spT 5).1 = none ∧ loopsForever envT spT :=
  ⟨envT_loop 5 (initState envT spT) rfl,
   fun fuel => envT_loop fuel (initState envT spT) rfl⟩

/-- Shape of the post-alpha part of the loop body: it either breaks
returning the current path length, or bounces — tracing the scattered
ray, incrementing the path length, and only when the current length is
below the hard ceiling. -/
theorem stepBsdf_shape (env : PathEnv) (st : PathState)
    (material : MaterialM) (r : Nat) :
    (traceStepBsdf env st material r).1 = StepRes.done st.pathLength
    ∨ (∃ st2, (traceStepBsdf env st material r).1 = StepRes.next st2
        ∧ st2.sp = env.isect ⟨st.sp.point,
            (env.bsdfSample st.bsdfIdx).incoming, st.sp.ray.time⟩ st.isectIdx
        ∧ st2.pathLength = st.pathLength + 1
        ∧ st.pathLength < HardPathLengthLimit) := by
  by_cases h1 : material.hasBsdf = false
  · left; simp [traceStepBsdf, h1]
  · by_cases h2 : env.visit st.visitIdx = false
    · left; simp [traceStepBsdf, h1, h2]
    · by_cases h3 : env.modeMask (env.bsdfSample st.bsdfIdx).mode = false
      · left; simp [traceStepBsdf, h1, h2, h3]
      · cases hrr : rrApply env r st.pathLength
            (divideByProb (env.bsdfSample st.bsdfIdx).value
              (env.bsdfSample st.bsdfIdx).prob)
            (mulSpec st.throughput
              (divideByProb (env.bsdfSample st.bsdfIdx).value
                (env.bsdfSample st.bsdfIdx).prob)) with
        | none => left; simp [traceStepBsdf, h1, h2, h3, hrr]
        | some pr =>
          cases pr with
          | mk tp2 r2 =>
            by_cases h4 : 0 < env.maxPathLength
                ∧ env.maxPathLength ≤ st.pathLength
            · left; simp [traceStepBsdf, h1, h2, h3, hrr, h4]
            · by_cases h5 : HardPathLengthLimit ≤ st.pathLength
              · left; simp [traceStepBsdf, h1, h2, h3, hrr, h4, h5]
              · right
                refine ⟨PathState.mk
                    (env.isect ⟨st.sp.point,
                      (env.bsdfSample st.bsdfIdx).incoming,
                      st.sp.ray.time⟩ st.isectIdx)
                    tp2 (st.pathLength + 1) (env.bsdfSample st.bsdfIdx).mode
                    (env.bsdfSample st.bsdfIdx).prob r2 (st.bsdfIdx + 1)
                    (st.isectIdx + 1) (st.visitIdx + 1),
                  ?_, rfl, rfl, by omega⟩
                simp [traceStepBsdf, h1, h2, h3, hrr, h4, h5]

/-- Shape of one loop iteration: break returning the current path length;
take the transparency retry (same path length, shading point from the
retry intersection, only possible on a non-opaque point); or bounce
(path length incremented, only below the hard ceiling). -/
theorem step_shape (env : PathEnv) (st : PathState) :
    (traceStep env st).1 = StepRes.done st.pathLength
    ∨ (∃ st2, (traceStep env st).1 = StepRes.next st2
        ∧ st2.sp = env.isect ⟨st.sp.point, st.sp.ray.dir, st.sp.ray.time⟩
            st.isectIdx
        ∧ st2.pathLength = st.pathLength
        ∧ alphaOpaque st.sp = false)
    ∨ (∃ st2, (traceStep env st).1 = StepRes.next st2
        ∧ st2.sp = env.isect ⟨st.sp.point,
            (env.bsdfSample st.bsdfIdx).incoming, st.sp.ray.time⟩ st.isectIdx
        ∧ st2.pathLength = st.pathLength + 1
        ∧ st.pathLength < HardPathLengthLimit) := by
  by_cases hh : st.sp.hit = false
  · left; simp [traceStep, hh]
  · cases hmat : st.sp.material with
    | none => left; simp [traceStep, hh, hmat]
    | some material =>
      cases hss : material.surfaceShader with
      | none => left; simp [traceStep, hh, hmat, hss]
      | some ss =>
        by_cases ha : ss.alphaMask < 1
        · by_cases hs : ss.alphaMask ≤ env.rand st.randIdx
          · right; left
            refine ⟨{ st with
                sp := env.isect ⟨st.sp.point, st.sp.ray.dir, st.sp.ray.time⟩
                  st.isectIdx
                randIdx := st.randIdx + 1
                isectIdx := st.isectIdx + 1 }, ?_, rfl, rfl, ?_⟩
            · simp [traceStep, hh, hmat, hss, ha, hs]
            · simp [alphaOpaque, hmat, hss]
              exact ha
          · have hstep : traceStep env st =
                traceStepBsdf env st material (st.randIdx + 1) := by
              simp [traceStep, hh, hmat, hss, ha, hs]
            rcases stepBsdf_shape env st material (st.randIdx + 1) with hd | hb
            · left; rw [hstep]; exact hd
            · right; right; rw [hstep]; exact hb
        · have hstep : traceStep env st =
              traceStepBsdf env st material st.randIdx := by
            simp [traceStep, hh, hmat, hss, ha]
          rcases stepBsdf_shape env st material st.randIdx with hd | hb
          · left; rw [hstep]; exact hd
          · right; right; rw [hstep]; exact hb

/-- Any path length the loop returns is at most the hard ceiling,
provided the starting length is. -/
theorem loop_result_le (env : PathEnv) : ∀ (fuel : Nat) (st : PathState)
    (n : Nat), st.pathLength ≤ HardPathLengthLimit →
    (traceLoop env st fuel).1 = some n → n ≤ HardPathLengthLimit := by
  intro fuel
  induction fuel with
  | zero => intro st n _ h; simp [traceLoop] at h
  | succ f ih =>
    intro st n hle h
    rcases step_shape env st with hd | ⟨st2, hn, _, hl, _⟩ | ⟨st2, hn, _, hl, hlt⟩
    · cases hstep : traceStep env st with
      | mk res ev =>
        rw [hstep] at hd; simp only at hd; subst hd
        simp [traceLoop, hstep] at h
        omega
    · cases hstep : traceStep env st with
      | mk res ev =>
        rw [hstep] at hn; simp only at hn; subst hn
        simp [traceLoop, hstep] at h
        exact ih st2 n (by omega) h
    · cases hstep : traceStep env st with
      | mk res ev =>
        rw [hstep] at hn; simp only at hn; subst hn
        simp [traceLoop, hstep] at h
        exact ih st2 n (by omega) h

/-- When the starting point and every intersector result are opaque (no
transparency retry possible), the loop breaks within
`HardPathLengthLimit + 1` iterations. -/
theorem loop_opaque_terminates (env : PathEnv)
    (henv : ∀ r i, alphaOpaque (env.isect r i) = true) :
    ∀ (fuel : Nat) (st : PathState), alphaOpaque st.sp = true →
      1 ≤ fuel → HardPathLengthLimit + 1 ≤ st.pathLength + fuel →
      (traceLoop env st fuel).1 ≠ none := by
  intro fuel
  induction fuel with
  | zero => intro st _ h _; omega
  | succ f ih =>
    intro st hop _ hbound
    rcases step_shape env st with hd | ⟨st2, hn, hsp, hl, hfalse⟩
        | ⟨st2, hn, hsp, hl, hlt⟩
    · cases hstep : traceStep env st with
      | mk res ev =>
        rw [hstep] at hd; simp only at hd; subst hd
        simp [traceLoop, hstep]
    · rw [hop] at hfalse
      exact absurd hfalse (by simp)
    · cases hstep : traceStep env st with
      | mk res ev =>
        rw [hstep] at hn; simp only at hn; subst hn
        simp only [traceLoop, hstep]
        exact ih st2 (hsp ▸ henv _ _) (by omega) (by omega)


/-- C2 (amended): the hard ceiling bounds the number of bounces — every
path length `PathTracer::trace` returns is at most 10,000 — and the walk
terminates within 10,001 iterations whenever no transparency retry is
possible (every shading point opaque); but the ceiling alone does not
guarantee termination: a walk that takes the transparency-retry branch
forever never increments the path length and never breaks. -/
theorem hard_limit_amended (env : PathEnv) (sp : ShadingPointM) :
    (∀ fuel n, (pathTrace env sp fuel).1 = some n → n ≤ HardPathLengthLimit)
    ∧ (alphaOpaque sp = true →
      (∀ r i, alphaOpaque (env.isect r i) = true) →
      (pathTrace env sp (HardPathLengthLimit + 1)).1 ≠ none) := by
  constructor
  · intro fuel n h
    exact loop_result_le env fuel (initState env sp) n
      (by simp [initState, HardPathLengthLimit]) h
  · intro h1 h2
    exact loop_opaque_terminates env h2 (HardPathLengthLimit + 1)
      (initState env sp) h1 (by omega) (by simp [initState])

/-- Witness for `hard_limit_amended`: with an intersector that always
misses, the walk terminates within the hard-limit fuel. -/
theorem hard_limit_amended_witness :
    (pathTrace envW spMiss (HardPathLengthLimit + 1)).1 ≠ none :=
  (hard_limit_amended envW spMiss).2 rfl (fun r i => rfl)

/-- A finite non-negative value is a `fin` with non-negative rational. -/
theorem EF_finNonneg_iff {e : EF} :
    e.finNonneg = true ↔ ∃ q, e = EF.fin q ∧ 0 ≤ q := by
  cases e <;> simp [EF.finNonneg]

/-- Products of finite non-negative values are finite non-negative. -/
theorem EF_mul_finNonneg {a b : EF} (ha : a.finNonneg = true)
    (hb : b.finNonneg = true) : (EF.mul a b).finNonneg = true := by
  rcases EF_finNonneg_iff.mp ha with ⟨qa, rfl, hqa⟩
  rcases EF_finNonneg_iff.mp hb with ⟨qb, rfl, hqb⟩
  simp [EF.mul, EF.finNonneg]
  exact mul_nonneg hqa hqb

/-- Division of a finite non-negative value by a finite positive value is
finite non-negative. -/
theorem EF_div_pos_finNonneg {a : EF} {q : ℚ} (ha : a.finNonneg = true)
    (hq : 0 < q) : (EF.div a (EF.fin q)).finNonneg = true := by
  rcases EF_finNonneg_iff.mp ha with ⟨qa, rfl, hqa⟩
  simp [EF.div, EF.finNonneg, hq.ne']
  exact div_nonneg hqa hq.le

/-- `std::max` of finite non-negative values is finite non-negative. -/
theorem EF_max_finNonneg {a b : EF} (ha : a.finNonneg = true)
    (hb : b.finNonneg = true) : (EF.max a b).finNonneg = true := by
  unfold EF.max
  split_ifs <;> assumption

/-- `std::min` of finite non-negative values is finite non-negative. -/
theorem EF_min_finNonneg {a b : EF} (ha : a.finNonneg = true)
    (hb : b.finNonneg = true) : (EF.min a b).finNonneg = true := by
  unfold EF.min
  split_ifs <;> assumption

/-- The maximum component of a componentwise finite non-negative
spectrum is finite non-negative. -/
theorem maxValue_finNonneg (l : SpecEF)
    (h : ∀ e ∈ l, e.finNonneg = true) : (maxValue l).finNonneg = true := by
  cases l with
  | nil => simp [maxValue, EF.finNonneg]
  | cons x xs =>
    have aux : ∀ (ys : List EF) (acc : EF), acc.finNonneg = true →
        (∀ e ∈ ys, e.finNonneg = true) →
        (ys.foldl EF.max acc).finNonneg = true := by
      intro ys
      induction ys with
      | nil => intro acc ha _; simpa using ha
      | cons y ys ih =>
        intro acc ha hy
        simp only [List.foldl_cons]
        exact ih (EF.max acc y)
          (EF_max_finNonneg ha (hy y (by simp)))
          (fun e he => hy e (by simp [he]))
    simp only [maxValue]
    exact aux xs x (h x (by simp)) (fun e he => h e (by simp [he]))

/-- Componentwise products of finite non-negative spectra are finite
non-negative. -/
theorem mulSpec_finNonneg : ∀ (a b : SpecEF),
    (∀ e ∈ a, e.finNonneg = true) → (∀ e ∈ b, e.finNonneg = true) →
    ∀ e ∈ mulSpec a b, e.finNonneg = true := by
  intro a
  induction a with
  | nil => intro b _ _ e he; simp [mulSpec] at he
  | cons x xs ih =>
    intro b ha hb e he
    cases b with
    | nil => simp [mulSpec] at he
    | cons y ys =>
      simp only [mulSpec, List.zipWith_cons_cons] at he
      rcases List.mem_cons.mp he with rfl | he2
      · exact EF_mul_finNonneg (ha x (by simp)) (hb y (by simp))
      · exact ih ys (fun t ht => ha t (by simp [ht]))
          (fun t ht => hb t (by simp [ht])) e he2

/-- Dividing a finite non-negative spectrum by a well-behaved probability
keeps it finite non-negative. -/
theorem divideByProb_finNonneg (value : SpecEF) (prob : ProbM)
    (hv : ∀ e ∈ value, e.finNonneg = true)
    (hp : probWellBehaved prob = true) :
    ∀ e ∈ divideByProb value prob, e.finNonneg = true := by
  cases prob with
  | dirac => simpa [divideByProb] using hv
  | val p =>
    cases p with
    | fin q =>
      intro e he
      simp only [divideByProb, List.mem_map] at he
      obtain ⟨x, hx, rfl⟩ := he
      have hq : 0 < q := by simpa [probWellBehaved] using hp
      exact EF_div_pos_finNonneg (hv x hx) hq
    | nan => simp [probWellBehaved] at hp
    | inf => simp [probWellBehaved] at hp
    | ninf => simp [probWellBehaved] at hp

/-- Dividing a finite non-negative spectrum by a positive scalar keeps it
finite non-negative. -/
theorem divSpecScalar_finNonneg (a : SpecEF) (q : ℚ) (hq : 0 < q)
    (ha : ∀ e ∈ a, e.finNonneg = true) :
    ∀ e ∈ divSpecScalar a (EF.fin q), e.finNonneg = true := by
  intro e he
  simp only [divSpecScalar, List.mem_map] at he
  obtain ⟨x, hx, rfl⟩ := he
  exact EF_div_pos_finNonneg (ha x hx) hq

/-- A surviving Russian-roulette application keeps the throughput finite
non-negative: the scattering probability is derived from the sampled
value (hence finite) and survival forces it positive. -/
theorem rrApply_finNonneg (env : PathEnv) (r len : Nat) (value tp : SpecEF)
    (hrand : 0 ≤ env.rand r)
    (hv : ∀ e ∈ value, e.finNonneg = true)
    (ht : ∀ e ∈ tp, e.finNonneg = true) :
    ∀ tp2 r2, rrApply env r len value tp = some (tp2, r2) →
      ∀ e ∈ tp2, e.finNonneg = true := by
  intro tp2 r2 h
  simp only [rrApply] at h
  split_ifs at h with hc hp
  · have hone : (EF.fin 1).finNonneg = true := by simp [EF.finNonneg]
    have hmin : (EF.min (maxValue value) (EF.fin 1)).finNonneg = true :=
      EF_min_finNonneg (maxValue_finNonneg value hv) hone
    rcases EF_finNonneg_iff.mp hmin with ⟨q, hq, hq0⟩
    have hqpos : 0 < q := by
      rw [hq] at hp
      simp only [pass_rr, EF.lt, decide_eq_true_eq] at hp
      linarith
    rw [Option.some_inj, Prod.mk.injEq] at h
    obtain ⟨h1, _⟩ := h
    subst h1
    rw [hq]
    exact divSpecScalar_finNonneg tp q hqpos ht
  · rw [Option.some_inj, Prod.mk.injEq] at h
    exact h.1 ▸ ht

/-- Throughput preservation through the post-alpha part of the loop body:
with well-behaved collaborators, every throughput written is finite
non-negative, and so is the continuing state's throughput. -/
theorem stepBsdf_tp (env : PathEnv) (st : PathState) (material : MaterialM)
    (r : Nat) (henv : envWellBehaved env)
    (ht : ∀ e ∈ st.throughput, e.finNonneg = true) :
    (∀ tp, PathEvent.tpUpdate tp ∈ (traceStepBsdf env st material r).2 →
      ∀ e ∈ tp, e.finNonneg = true)
    ∧ (∀ st2, (traceStepBsdf env st material r).1 = StepRes.next st2 →
      ∀ e ∈ st2.throughput, e.finNonneg = true) := by
  have hvOK : ∀ e ∈ divideByProb (env.bsdfSample st.bsdfIdx).value
      (env.bsdfSample st.bsdfIdx).prob, e.finNonneg = true :=
    divideByProb_finNonneg _ _ (henv st.bsdfIdx).1 (henv st.bsdfIdx).2.1
  have htp1 : ∀ e ∈ mulSpec st.throughput
      (divideByProb (env.bsdfSample st.bsdfIdx).value
        (env.bsdfSample st.bsdfIdx).prob), e.finNonneg = true :=
    mulSpec_finNonneg _ _ ht hvOK
  by_cases h1 : material.hasBsdf = false
  · exact ⟨fun tp htp => by simp [traceStepBsdf, h1] at htp,
      fun st2 h => by simp [traceStepBsdf, h1] at h⟩
  · by_cases h2 : env.visit st.visitIdx = false
    · exact ⟨fun tp htp => by simp [traceStepBsdf, h1, h2] at htp,
        fun st2 h => by simp [traceStepBsdf, h1, h2] at h⟩
    · by_cases h3 : env.modeMask (env.bsdfSample st.bsdfIdx).mode = false
      · exact ⟨fun tp htp => by simp [traceStepBsdf, h1, h2, h3] at htp,
          fun st2 h => by simp [traceStepBsdf, h1, h2, h3] at h⟩
      · cases hrr : rrApply env r st.pathLength
            (divideByProb (env.bsdfSample st.bsdfIdx).value
              (env.bsdfSample st.bsdfIdx).prob)
            (mulSpec st.throughput
              (divideByProb (env.bsdfSample st.bsdfIdx).value
                (env.bsdfSample st.bsdfIdx).prob)) with
        | none =>
          constructor
          · intro tp htp
            simp [traceStepBsdf, h1, h2, h3, hrr] at htp
            subst htp
            exact htp1
          · intro st2 h
            simp [traceStepBsdf, h1, h2, h3, hrr] at h
        | some pr =>
          cases pr with
          | mk tp2 r2 =>
            have htp2 : ∀ e ∈ tp2, e.finNonneg = true :=
              rrApply_finNonneg env r st.pathLength _ _ (henv r).2.2 hvOK htp1
                tp2 r2 hrr
            by_cases h4 : 0 < env.maxPathLength
                ∧ env.maxPathLength ≤ st.pathLength
            · constructor
              · intro tp htp
                simp [traceStepBsdf, h1, h2, h3, hrr, h4] at htp
                rcases htp with rfl | rfl
                · exact htp1
                · exact htp2
              · intro st2 h
                simp [traceStepBsdf, h1, h2, h3, hrr, h4] at h
            · by_cases h5 : HardPathLengthLimit ≤ st.pathLength
              · constructor
                · intro tp htp
                  simp [traceStepBsdf, h1, h2, h3, hrr, h4, h5] at htp
                  rcases htp with rfl | rfl
                  · exact htp1
                  · exact htp2
                · intro st2 h
                  simp [traceStepBsdf, h1, h2, h3, hrr, h4, h5] at h
              · constructor
                · intro tp htp
                  simp [traceStepBsdf, h1, h2, h3, hrr, h4, h5] at htp
                  rcases htp with rfl | rfl
                  · exact htp1
                  · exact htp2
                · intro st2 h
                  simp [traceStepBsdf, h1, h2, h3, hrr, h4, h5] at h
                  subst h
                  exact htp2

/-- Throughput preservation through one full loop iteration. -/
theorem step_tp (env : PathEnv) (st : PathState)
    (henv : envWellBehaved env)
    (ht : ∀ e ∈ st.throughput, e.finNonneg = true) :
    (∀ tp, PathEvent.tpUpdate tp ∈ (traceStep env st).2 →
      ∀ e ∈ tp, e.finNonneg = true)
    ∧ (∀ st2, (traceStep env st).1 = StepRes.next st2 →
      ∀ e ∈ st2.throughput, e.finNonneg = true) := by
  by_cases hh : st.sp.hit = false
  · exact ⟨fun tp htp => by simp [traceStep, hh] at htp,
      fun st2 h => by simp [traceStep, hh] at h⟩
  · cases hmat : st.sp.material with
    | none =>
      exact ⟨fun tp htp => by simp [traceStep, hh, hmat] at htp,
        fun st2 h => by simp [traceStep, hh, hmat] at h⟩
    | some material =>
      cases hss : material.surfaceShader with
      | none =>
        exact ⟨fun tp htp => by simp [traceStep, hh, hmat, hss] at htp,
          fun st2 h => by simp [traceStep, hh, hmat, hss] at h⟩
      | some ss =>
        by_cases ha : ss.alphaMask < 1
        · by_cases hs : ss.alphaMask ≤ env.rand st.randIdx
          · constructor
            · intro tp htp
              simp [traceStep, hh, hmat, hss, ha, hs] at htp
            · intro st2 h
              simp [traceStep, hh, hmat, hss, ha, hs] at h
              subst h
              simpa using ht
          · have hstep : traceStep env st =
                traceStepBsdf env st material (st.randIdx + 1) := by
              simp [traceStep, hh, hmat, hss, ha, hs]
            rw [hstep]
            exact stepBsdf_tp env st material (st.randIdx + 1) henv ht
        · have hstep : traceStep env st =
              traceStepBsdf env st material st.randIdx := by
            simp [traceStep, hh, hmat, hss, ha]
          rw [hstep]
          exact stepBsdf_tp env st material st.randIdx henv ht

/-- Throughput preservation through any number of loop iterations: every
throughput the walk logs is finite non-negative. -/
theorem loop_tp (env : PathEnv) (henv : envWellBehaved env) :
    ∀ (fuel : Nat) (st : PathState),
      (∀ e ∈ st.throughput, e.finNonneg = true) →
      ∀ tp, PathEvent.tpUpdate tp ∈ (traceLoop env st fuel).2 →
        ∀ e ∈ tp, e.finNonneg = true := by
  intro fuel
  induction fuel with
  | zero => intro st _ tp htp; simp [traceLoop] at htp
  | succ f ih =>
    intro st hts tp htp
    cases hstep : traceStep env st with
    | mk res ev =>
      have hstepm := step_tp env st henv hts
      rw [hstep] at hstepm
      cases res with
      | done n =>
        simp [traceLoop, hstep] at htp
        exact hstepm.1 tp (by simpa using htp)
      | next st2 =>
        simp only [traceLoop, hstep] at htp
        rcases List.mem_append.mp (by simpa using htp) with h | h
        · exact hstepm.1 tp (by simpa using h)
        · exact ih st2 (hstepm.2 st2 rfl) tp h

/-- C1 (amended): provided the external collaborators are well-behaved —
every sampled BSDF value finite and non-negative componentwise, every
non-Dirac sampled probability finite and positive, every uniform sample
non-negative — the accumulated throughput is finite and non-negative
componentwise after every update (the `throughput *= bsdf_value` write
and the Russian-roulette division).  The code itself contains no NaN/Inf
guard, so without these hypotheses an adversarial BSDF drives the
throughput to infinity (see the counterexample). -/
theorem throughput_finite_nonneg (env : PathEnv) (henv : envWellBehaved env)
    (sp : ShadingPointM) (fuel : Nat) (tp : SpecEF)
    (h : PathEvent.tpUpdate tp ∈ (pathTrace env sp fuel).2) :
    tp.all EF.finNonneg = true := by
  have hinit : ∀ e ∈ (initState env sp).throughput, e.finNonneg = true := by
    intro e he
    simp only [initState] at he
    rw [List.eq_of_mem_replicate he]
    simp [EF.finNonneg]
  have hmem := loop_tp env henv fuel (initState env sp) hinit tp h
  exact List.all_eq_true.mpr (fun x hx => hmem x hx)

/-- Counterexample for C1: feeding the BSDF stub that returns an infinite
value with near-zero probability (the exact regression input the spec
names), the walk writes a throughput whose component is infinite — the
code has no NaN/Inf guard, so the claimed invariant fails. -/
theorem throughput_inf_counterexample :
    PathEvent.tpUpdate [EF.inf] ∈ (pathTrace envInf (spHit 1) 1).2
    ∧ EF.finNonneg EF.inf = false := by
  constructor
  · norm_num [pathTrace, traceLoop, traceStep, traceStepBsdf, initState,
      envInf, baseEnv, spHit, matFull, ray0, divideByProb, mulSpec,
      rrApply, EF.div, EF.mul, List.replicate]
  · rfl

/-- Witness for `throughput_finite_nonneg`: in a benign environment the
logged throughput `[1]` is finite non-negative. -/
theorem throughput_finite_nonneg_witness :
    List.all [EF.fin 1] EF.finNonneg = true :=
  throughput_finite_nonneg baseEnv
    (fun n => ⟨fun e he => by
        simp [baseEnv] at he
        subst he
        norm_num [EF.finNonneg],
      by norm_num [baseEnv, probWellBehaved],
      le_refl 0⟩)
    (spHit 1) 1 [EF.fin 1]
    (by norm_num [pathTrace, traceLoop, traceStep, traceStepBsdf, initState,
      baseEnv, spHit, matFull, ray0, divideByProb, mulSpec,
      rrApply, EF.div, EF.mul, List.replicate, HardPathLengthLimit])
